import Mathlib

/-!
Verification of the blob-trigger audit function
(`BlobTriggerFunction/__init__.py`).

The handler reacts to one blob event per invocation: it reads the
connection string from the environment, connects to the audit store,
ensures the `BlobAudit` table exists (committing that in its own
transaction), classifies the blob's content type from its file
extension, inserts one audit row (committed), reads back the total
row count, and releases the cursor and connection on every exit path
through a best-effort `finally` block.

The store is modelled as explicit state: a durable `StoreData` plus a
working copy held by the connection; `commit` publishes the working
copy to the durable state.  Store-level failures (connect, the three
executed statements, the two close calls in cleanup) are modelled by a
`Behavior` record of failure flags, so that every fault path of the
Python code is a reachable branch of `handle`.
-/

namespace BlobTrigger

/-- The fault taxonomy of the handler: `ValueError` on a missing
connection string (ConfigFault), `pyodbc.Error` from the store
(StoreFault), and any other runtime fault (UnexpectedFault). -/
inductive Fault where
  | config : Fault
  | store : Fault
  | unexpected : Fault
  deriving DecidableEq, Repr

/-- The input of one invocation: blob name, byte length, and content
bytes (the content is read but never used beyond logging). -/
structure BlobEvent where
  name : String
  length : Nat
  content : List Nat
  deriving DecidableEq, Repr

/-- One column of a table definition, as written in the CREATE TABLE
statement. -/
structure ColumnDef where
  colName : String
  sqlType : String
  deriving DecidableEq, Repr

/-- A table in the store's catalog. -/
structure TableDef where
  tblName : String
  columns : List ColumnDef
  deriving DecidableEq, Repr

/-- The columns of the `BlobAudit` table exactly as the CREATE TABLE
statement lists them. -/
def blobAuditColumns : List ColumnDef :=
  [⟨"Id", "INT IDENTITY PRIMARY KEY"⟩,
   ⟨"BlobName", "NVARCHAR(500)"⟩,
   ⟨"BlobSize", "BIGINT"⟩,
   ⟨"ProcessedAt", "DATETIME DEFAULT GETDATE()"⟩,
   ⟨"ContentType", "NVARCHAR(100)"⟩,
   ⟨"Status", "NVARCHAR(50) DEFAULT 'Processed'"⟩]

/-- The `BlobAudit` table definition. -/
def blobAuditTable : TableDef := ⟨"BlobAudit", blobAuditColumns⟩

/-- One row of the `BlobAudit` table.  `Id` is assigned by the store's
IDENTITY counter; `ProcessedAt` is a server-side default and carries no
information the claims mention, so it is not modelled. -/
structure AuditRecord where
  id : Nat
  blobName : String
  blobSize : Nat
  contentType : String
  status : String
  deriving DecidableEq, Repr

/-- The audit store: its catalog of tables, the rows of `BlobAudit`,
and the next IDENTITY value (IDENTITY seeds at 1). -/
structure StoreData where
  tables : List TableDef
  rows : List AuditRecord
  nextId : Nat
  deriving DecidableEq, Repr

/-- A store that has never been touched: no tables, no rows. -/
def emptyStore : StoreData := ⟨[], [], 1⟩

/-- Index of the last occurrence of `c` in `l` (Python `str.rfind`,
restricted to single characters), `none` when absent. -/
def rfindIdx (c : Char) : List Char → Option Nat
  | [] => none
  | x :: xs =>
    match rfindIdx c xs with
    | some i => some (i + 1)
    | none => if x = c then some 0 else none

/-- The extension part of `posixpath.splitext`, on the character list
of the name.  Mirrors CPython `genericpath._splitext` with `sep = '/'`
and `extsep = '.'`: the extension starts at the last dot provided that
dot comes after the last separator and at least one non-dot character
stands between the separator and the dot (leading dots of the last
path component are part of the root, so `".edi"` has no extension). -/
def splitextExtAux (p : List Char) : List Char :=
  let sepIndex : Int := match rfindIdx '/' p with
    | some i => (i : Int)
    | none => -1
  let dotIndex : Int := match rfindIdx '.' p with
    | some i => (i : Int)
    | none => -1
  if sepIndex < dotIndex then
    let d := dotIndex.toNat
    if (List.range d).any (fun i => decide (sepIndex < (i : Int)) && (p.getD i '.' != '.')) then
      p.drop d
    else []
  else []

/-- `os.path.splitext(name)[1]` on strings. -/
def splitextExt (name : String) : String :=
  String.mk (splitextExtAux name.data)

/-- `str.lower`, character by character (the extensions compared
against are ASCII, where this agrees with Python). -/
def strLower (s : String) : String :=
  String.mk (s.data.map Char.toLower)

/-- The content-type classification of the handler:
`file_extension = os.path.splitext(name)[1].lower()` followed by the
if/elif lookup with default `'text/plain'`. -/
def classify (name : String) : String :=
  let fileExtension := strLower (splitextExt name)
  if fileExtension = ".txt" then "text/plain"
  else if fileExtension = ".edi" then "application/edi"
  else if fileExtension = ".xml" then "application/xml"
  else if fileExtension = ".json" then "application/json"
  else "text/plain"

/-- The conditional CREATE TABLE statement: if no table named
`BlobAudit` exists in the catalog, append the `BlobAudit` table;
otherwise do nothing. -/
def ensureBlobAudit (s : StoreData) : StoreData :=
  if s.tables.any (fun t => t.tblName == "BlobAudit") then s
  else { s with tables := s.tables ++ [blobAuditTable] }

/-- The INSERT statement: appends one row, the `Id` taken from the
IDENTITY counter. -/
def insertAudit (name : String) (size : Nat) (contentType status : String)
    (s : StoreData) : StoreData :=
  { s with rows := s.rows ++ [⟨s.nextId, name, size, contentType, status⟩],
           nextId := s.nextId + 1 }

/-- `SELECT COUNT(*) FROM BlobAudit`: the row count, and the store it
leaves behind. -/
def countAll (s : StoreData) : Nat × StoreData :=
  (s.rows.length, s)

/-- Which store-boundary operations of this invocation raise a
`pyodbc.Error`: the `connect` call, the three executed statements
(conditional CREATE, INSERT, SELECT COUNT), and the two `close` calls
of the `finally` block. -/
structure Behavior where
  connectFails : Bool
  ensureFails : Bool
  insertFails : Bool
  countFails : Bool
  closeCurFails : Bool
  closeCnFails : Bool
  deriving DecidableEq, Repr

/-- A fully healthy store: every operation succeeds. -/
def okBehavior : Behavior := ⟨false, false, false, false, false, false⟩

/-- What the invocation did with its scoped resources: how many times
`pyodbc.connect` was called, and whether the connection and the cursor
were acquired and released. -/
structure RunLog where
  connectCalls : Nat
  connOpened : Bool
  connClosed : Bool
  curOpened : Bool
  curClosed : Bool
  deriving DecidableEq, Repr

/-- The log at the start of an invocation: nothing acquired. -/
def initLog : RunLog := ⟨0, false, false, false, false⟩

/-- The `finally` block:
`try: if cur: cur.close(); if cn: cn.close() except: pass`.
`cur` is in `locals()` iff the cursor was acquired; `cur.close()` on an
already-closed cursor raises (swallowed, and `cn.close()` is then
skipped), as does a failing close; the bare `except: pass` means no
failure here escapes. -/
def finallyCleanup (beh : Behavior) (l : RunLog) : RunLog :=
  if l.curOpened then
    if l.curClosed then l
    else if beh.closeCurFails then l
    else
      let l2 := { l with curClosed := true }
      if l2.connOpened && !l2.connClosed then
        if beh.closeCnFails then l2 else { l2 with connClosed := true }
      else l2
  else if l.connOpened && !l.connClosed then
    if beh.closeCnFails then l else { l with connClosed := true }
  else l

/-- The `main` entry point of the function, from reading the
connection string to the `finally` block.  `env` is
`os.environ.get("SQLConnectionString")`; `durable` is the committed
state of the audit store.  The connection works on a private copy of
the store; `cn.commit()` publishes it.  Returns the outcome (success
or the raised fault), the durable store state, and the resource log
after cleanup. -/
def handle (env : Option String) (beh : Behavior) (ev : BlobEvent)
    (durable : StoreData) : Except Fault Unit × StoreData × RunLog :=
  let body : Except Fault Unit × StoreData × RunLog :=
    match env with
    | none => (Except.error Fault.config, durable, initLog)
    | some connStr =>
      if connStr = "" then (Except.error Fault.config, durable, initLog)
      else if beh.connectFails then
        (Except.error Fault.store, durable, { initLog with connectCalls := 1 })
      else
        let log1 : RunLog := ⟨1, true, false, true, false⟩
        let working := durable
        if beh.ensureFails then (Except.error Fault.store, durable, log1)
        else
          let working := ensureBlobAudit working
          let durable1 := working
          let contentType := classify ev.name
          if beh.insertFails then (Except.error Fault.store, durable1, log1)
          else
            let working := insertAudit ev.name ev.length contentType "Processed" working
            let durable2 := working
            if beh.countFails then (Except.error Fault.store, durable2, log1)
            else
              let (_totalCount, _working) := countAll working
              (Except.ok (), durable2, { log1 with curClosed := true, connClosed := true })
  (body.1, body.2.1, finallyCleanup beh body.2.2)

/-- The extension extraction exactly as claim C4 words it (for
comparison with the implementation): the lowercased substring of the
name after the final dot, including the dot, and empty when the name
has no dot. -/
def specClaimedExtension (name : String) : String :=
  match rfindIdx '.' name.data with
  | some d => String.mk ((name.data.drop d).map Char.toLower)
  | none => ""

/-- The last path component of a name prefix: everything after the
last '/' (the whole list when there is no '/'). -/
def afterLastSep (u : List Char) : List Char :=
  match rfindIdx '/' u with
  | some k => u.drop (k + 1)
  | none => u

/-- The first fault an invocation with this configuration and store
behavior raises, if any: missing or empty connection string, then the
store operations in program order. -/
def faultPoint (env : Option String) (beh : Behavior) : Option Fault :=
  match env with
  | none => some Fault.config
  | some connStr =>
    if connStr = "" then some Fault.config
    else if beh.connectFails then some Fault.store
    else if beh.ensureFails then some Fault.store
    else if beh.insertFails then some Fault.store
    else if beh.countFails then some Fault.store
    else none

/-! ## Helper lemmas -/

theorem ensureBlobAudit_rows (s : StoreData) : (ensureBlobAudit s).rows = s.rows := by
  unfold ensureBlobAudit; split <;> rfl

theorem ensureBlobAudit_nextId (s : StoreData) :
    (ensureBlobAudit s).nextId = s.nextId := by
  unfold ensureBlobAudit; split <;> rfl

theorem ensureBlobAudit_has_table (s : StoreData) :
    (ensureBlobAudit s).tables.any (fun t => t.tblName == "BlobAudit") = true := by
  unfold ensureBlobAudit
  split
  · assumption
  · rw [List.any_append]
    have h1 : List.any [blobAuditTable] (fun t => t.tblName == "BlobAudit") = true := rfl
    rw [h1, Bool.or_true]

theorem ensureBlobAudit_ensureBlobAudit (s : StoreData) :
    ensureBlobAudit (ensureBlobAudit s) = ensureBlobAudit s := by
  have h := ensureBlobAudit_has_table s
  generalize hgen : ensureBlobAudit s = t at h ⊢
  unfold ensureBlobAudit
  rw [if_pos h]

theorem ensureBlobAudit_iterate (m : Nat) (s : StoreData) :
    ensureBlobAudit^[m] (ensureBlobAudit s) = ensureBlobAudit s := by
  induction m with
  | zero => rfl
  | succ k ih =>
    rw [Function.iterate_succ_apply, ensureBlobAudit_ensureBlobAudit, ih]

/-! ## Claims -/

/-- C1: for every valid BlobEvent handled with a reachable store (a
non-empty connection string and no failing store operation), `handle`
succeeds and inserts exactly one new audit row, whose blobName is the
event's name, blobSize the event's length, contentType the classifier
output on the name, and status `"Processed"`. -/
theorem handle_inserts_one_record (connStr : String) (beh : Behavior)
    (ev : BlobEvent) (s : StoreData) (hc : connStr ≠ "")
    (h1 : beh.connectFails = false) (h2 : beh.ensureFails = false)
    (h3 : beh.insertFails = false) (h4 : beh.countFails = false) :
    (handle (some connStr) beh ev s).1 = Except.ok () ∧
    (handle (some connStr) beh ev s).2.1.rows
      = s.rows ++ [⟨s.nextId, ev.name, ev.length, classify ev.name, "Processed"⟩] := by
  simp [handle, hc, h1, h2, h3, h4, insertAudit,
        ensureBlobAudit_rows, ensureBlobAudit_nextId]

/-- Witness for C1: the end-to-end scenario of the claim, with the
blob `invoice-2024.edi` of length 4096 on an empty store; the single
inserted row carries ContentType `application/edi`. -/
theorem handle_inserts_one_record_witness :
    ("Server=tcp:db;Database=audit" : String) ≠ "" ∧
    (handle (some "Server=tcp:db;Database=audit") okBehavior
        ⟨"invoice-2024.edi", 4096, []⟩ emptyStore).1 = Except.ok () ∧
    (handle (some "Server=tcp:db;Database=audit") okBehavior
        ⟨"invoice-2024.edi", 4096, []⟩ emptyStore).2.1.rows
      = [⟨1, "invoice-2024.edi", 4096, "application/edi", "Processed"⟩] := by
  have h := handle_inserts_one_record "Server=tcp:db;Database=audit" okBehavior
    ⟨"invoice-2024.edi", 4096, []⟩ emptyStore (by decide) rfl rfl rfl rfl
  exact ⟨by decide, h.1, h.2.trans (by decide)⟩

/-- C2: when the connection-string configuration value is absent,
`handle` fails with a ConfigFault, the store is untouched, and the
resource log still records zero `connect` calls and no acquired
connection or cursor. -/
theorem missing_config_aborts (beh : Behavior) (ev : BlobEvent) (s : StoreData) :
    handle none beh ev s = (Except.error Fault.config, s, initLog) := rfl

/-- C9: a connection-string configuration value that is present but
empty is treated exactly like an absent one: ConfigFault, store
untouched, zero `connect` calls, nothing acquired. -/
theorem empty_config_aborts (beh : Behavior) (ev : BlobEvent) (s : StoreData) :
    handle (some "") beh ev s = (Except.error Fault.config, s, initLog) := rfl

/-- C5: `ensure` is idempotent.  Starting from any store without a
`BlobAudit` table, N ≥ 1 calls equal one call, leave exactly one
`BlobAudit` table — with the specified columns, since the appended
table is `blobAuditTable` — never duplicate it, and do not touch the
rows.  (`ensureBlobAudit` is a total function, so the calls never
fail.) -/
theorem ensure_idempotent (s : StoreData) (n : Nat) (h1 : 1 ≤ n)
    (h0 : s.tables.countP (fun t => t.tblName == "BlobAudit") = 0) :
    ensureBlobAudit^[n] s = ensureBlobAudit s ∧
    (ensureBlobAudit^[n] s).tables.countP (fun t => t.tblName == "BlobAudit") = 1 ∧
    (ensureBlobAudit^[n] s).tables = s.tables ++ [blobAuditTable] ∧
    (ensureBlobAudit^[n] s).rows = s.rows := by
  obtain ⟨m, rfl⟩ : ∃ m, n = m + 1 := ⟨n - 1, by omega⟩
  have hiter : ensureBlobAudit^[m + 1] s = ensureBlobAudit s := by
    rw [Function.iterate_succ_apply, ensureBlobAudit_iterate]
  have hany : s.tables.any (fun t => t.tblName == "BlobAudit") = false :=
    List.any_eq_false.mpr (List.countP_eq_zero.mp h0)
  have hone : ensureBlobAudit s = { s with tables := s.tables ++ [blobAuditTable] } := by
    unfold ensureBlobAudit
    rw [if_neg (by rw [hany]; exact Bool.false_ne_true)]
  rw [hiter, hone]
  refine ⟨rfl, ?_, rfl, rfl⟩
  rw [List.countP_append, h0]
  decide

/-- Witness for C5: three ensure-calls on the empty store equal one,
and leave exactly the one `BlobAudit` table. -/
theorem ensure_idempotent_witness :
    1 ≤ 3 ∧
    emptyStore.tables.countP (fun t => t.tblName == "BlobAudit") = 0 ∧
    (ensureBlobAudit^[3] emptyStore = ensureBlobAudit emptyStore ∧
     (ensureBlobAudit^[3] emptyStore).tables.countP
        (fun t => t.tblName == "BlobAudit") = 1 ∧
     (ensureBlobAudit^[3] emptyStore).tables = emptyStore.tables ++ [blobAuditTable] ∧
     (ensureBlobAudit^[3] emptyStore).rows = emptyStore.rows) :=
  ⟨by decide, by decide, ensure_idempotent emptyStore 3 (by decide) (by decide)⟩

/-- C10: when the connection succeeds and the schema-ensure step
succeeds but the insert fails, the invocation raises a StoreFault, yet
the durable store is exactly the ensure-result committed before the
insert: the `BlobAudit` table exists durably and no audit row was
added. -/
theorem ensure_committed_before_insert (connStr : String) (beh : Behavior)
    (ev : BlobEvent) (s : StoreData) (hc : connStr ≠ "")
    (h1 : beh.connectFails = false) (h2 : beh.ensureFails = false)
    (h3 : beh.insertFails = true) :
    (handle (some connStr) beh ev s).1 = Except.error Fault.store ∧
    (handle (some connStr) beh ev s).2.1 = ensureBlobAudit s ∧
    (handle (some connStr) beh ev s).2.1.tables.any
      (fun t => t.tblName == "BlobAudit") = true ∧
    (handle (some connStr) beh ev s).2.1.rows = s.rows := by
  have hhandle : (handle (some connStr) beh ev s).2.1 = ensureBlobAudit s := by
    simp [handle, hc, h1, h2, h3]
  exact ⟨by simp [handle, hc, h1, h2, h3], hhandle,
         hhandle ▸ ensureBlobAudit_has_table s,
         hhandle ▸ ensureBlobAudit_rows s⟩

/-- Witness for C10: a failing insert on the empty store with the
blob `a.txt` leaves the table and no rows. -/
theorem ensure_committed_before_insert_witness :
    ("Server=db" : String) ≠ "" ∧
    ((handle (some "Server=db") ⟨false, false, true, false, false, false⟩
        ⟨"a.txt", 7, []⟩ emptyStore).1 = Except.error Fault.store ∧
     (handle (some "Server=db") ⟨false, false, true, false, false, false⟩
        ⟨"a.txt", 7, []⟩ emptyStore).2.1 = ensureBlobAudit emptyStore ∧
     (handle (some "Server=db") ⟨false, false, true, false, false, false⟩
        ⟨"a.txt", 7, []⟩ emptyStore).2.1.tables.any
        (fun t => t.tblName == "BlobAudit") = true ∧
     (handle (some "Server=db") ⟨false, false, true, false, false, false⟩
        ⟨"a.txt", 7, []⟩ emptyStore).2.1.rows = emptyStore.rows) :=
  ⟨by decide, ensure_committed_before_insert "Server=db"
    ⟨false, false, true, false, false, false⟩ ⟨"a.txt", 7, []⟩ emptyStore
    (by decide) rfl rfl rfl⟩

/-- C6: every fault an invocation raises reaches the caller — the
outcome is exactly the first fault of the invocation, never silently
swallowed and never replaced — and a failure of the cleanup close
calls (the only code the `finally` block runs) neither changes that
outcome nor propagates: the result is identical whatever the two
cleanup-failure flags are. -/
theorem faults_propagate_after_cleanup (env : Option String) (beh : Behavior)
    (ev : BlobEvent) (s : StoreData) (b1 b2 : Bool) :
    (handle env { beh with closeCurFails := b1, closeCnFails := b2 } ev s).1
      = (handle env beh ev s).1 ∧
    (handle env beh ev s).1 = (match faultPoint env beh with
      | some f => Except.error f
      | none => Except.ok ()) := by
  obtain ⟨c1, c2, c3, c4, c5, c6⟩ := beh
  cases env with
  | none => exact ⟨rfl, rfl⟩
  | some cs =>
    by_cases hc : cs = "" <;>
      cases c1 <;> cases c2 <;> cases c3 <;> cases c4 <;>
        simp [handle, faultPoint, hc]

/-- C7: on every exit path of `handle` whose fault point is one of the
enumerated operations (normal completion, or a fault during connect,
schema ensure, insert, or count — i.e. the cleanup close calls
themselves succeed), every connection and every cursor acquired during
the invocation has been released when `handle` returns. -/
theorem resources_released (env : Option String) (beh : Behavior) (ev : BlobEvent)
    (s : StoreData) (hcur : beh.closeCurFails = false)
    (hcn : beh.closeCnFails = false) :
    ((handle env beh ev s).2.2.connOpened = true →
      (handle env beh ev s).2.2.connClosed = true) ∧
    ((handle env beh ev s).2.2.curOpened = true →
      (handle env beh ev s).2.2.curClosed = true) := by
  obtain ⟨c1, c2, c3, c4, c5, c6⟩ := beh
  simp only at hcur hcn
  subst hcur hcn
  cases env with
  | none => simp [handle, finallyCleanup, initLog]
  | some cs =>
    by_cases hc : cs = "" <;>
      cases c1 <;> cases c2 <;> cases c3 <;> cases c4 <;>
        simp [handle, finallyCleanup, initLog, hc]

/-- Witness for C7: a store failure during the count step — the
connection and cursor were acquired, and both are released. -/
theorem resources_released_witness :
    (⟨false, false, false, true, false, false⟩ : Behavior).closeCurFails = false ∧
    (⟨false, false, false, true, false, false⟩ : Behavior).closeCnFails = false ∧
    (handle (some "Server=db2") ⟨false, false, false, true, false, false⟩
        ⟨"b.xml", 9, []⟩ emptyStore).2.2.connOpened = true ∧
    (handle (some "Server=db2") ⟨false, false, false, true, false, false⟩
        ⟨"b.xml", 9, []⟩ emptyStore).2.2.connClosed = true ∧
    (handle (some "Server=db2") ⟨false, false, false, true, false, false⟩
        ⟨"b.xml", 9, []⟩ emptyStore).2.2.curOpened = true ∧
    (handle (some "Server=db2") ⟨false, false, false, true, false, false⟩
        ⟨"b.xml", 9, []⟩ emptyStore).2.2.curClosed = true :=
  ⟨rfl, rfl, by decide,
   (resources_released (some "Server=db2") ⟨false, false, false, true, false, false⟩
      ⟨"b.xml", 9, []⟩ emptyStore rfl rfl).1 (by decide),
   by decide,
   (resources_released (some "Server=db2") ⟨false, false, false, true, false, false⟩
      ⟨"b.xml", 9, []⟩ emptyStore rfl rfl).2 (by decide)⟩

/-- C8: `countAll` returns the total row count and leaves the store
unchanged, and two `handle` invocations with two different BlobEvents
on the initially empty store yield `countAll == 2`, the two rows
carrying distinct ids, both positive. -/
theorem countAll_readonly_two_inserts (connStr : String) (ev1 ev2 : BlobEvent)
    (hc : connStr ≠ "") (hne : ev1 ≠ ev2) :
    (∀ t : StoreData, (countAll t).2 = t ∧ (countAll t).1 = t.rows.length) ∧
    (countAll (handle (some connStr) okBehavior ev2
        (handle (some connStr) okBehavior ev1 emptyStore).2.1).2.1).1 = 2 ∧
    (∃ r1 r2 : AuditRecord,
      (handle (some connStr) okBehavior ev2
        (handle (some connStr) okBehavior ev1 emptyStore).2.1).2.1.rows = [r1, r2] ∧
      r1.id ≠ r2.id ∧ 0 < r1.id ∧ 0 < r2.id) := by
  refine ⟨fun t => ⟨rfl, rfl⟩, ?_,
    ⟨1, ev1.name, ev1.length, classify ev1.name, "Processed"⟩,
    ⟨2, ev2.name, ev2.length, classify ev2.name, "Processed"⟩,
    ?_, by simp, by simp, by simp⟩ <;>
    simp [handle, hc, okBehavior, emptyStore, ensureBlobAudit, insertAudit,
          countAll, blobAuditTable]

/-- Witness for C8: two concrete events on the empty store. -/
theorem countAll_readonly_two_inserts_witness :
    ("dsn" : String) ≠ "" ∧
    (⟨"a.edi", 10, []⟩ : BlobEvent) ≠ (⟨"b.json", 20, []⟩ : BlobEvent) ∧
    (countAll (handle (some "dsn") okBehavior ⟨"b.json", 20, []⟩
        (handle (some "dsn") okBehavior ⟨"a.edi", 10, []⟩ emptyStore).2.1).2.1).1 = 2 ∧
    (∃ r1 r2 : AuditRecord,
      (handle (some "dsn") okBehavior ⟨"b.json", 20, []⟩
        (handle (some "dsn") okBehavior ⟨"a.edi", 10, []⟩ emptyStore).2.1).2.1.rows
        = [r1, r2] ∧
      r1.id ≠ r2.id ∧ 0 < r1.id ∧ 0 < r2.id) :=
  ⟨by decide, by decide,
   (countAll_readonly_two_inserts "dsn" ⟨"a.edi", 10, []⟩ ⟨"b.json", 20, []⟩
      (by decide) (by decide)).2.1,
   (countAll_readonly_two_inserts "dsn" ⟨"a.edi", 10, []⟩ ⟨"b.json", 20, []⟩
      (by decide) (by decide)).2.2⟩

/-! ## The extension extraction: helper lemmas -/

theorem rfindIdx_append (c : Char) (xs ys : List Char) :
    rfindIdx c (xs ++ ys) = match rfindIdx c ys with
      | some i => some (xs.length + i)
      | none => rfindIdx c xs := by
  induction xs with
  | nil => cases h : rfindIdx c ys <;> simp [h, rfindIdx]
  | cons x xs ih =>
    show rfindIdx c (x :: (xs ++ ys)) = _
    simp only [rfindIdx, ih]
    cases h : rfindIdx c ys with
    | none => simp
    | some i => simp [Nat.add_right_comm, Nat.add_assoc]

theorem rfindIdx_eq_none_iff (c : Char) (l : List Char) :
    rfindIdx c l = none ↔ c ∉ l := by
  induction l with
  | nil => simp [rfindIdx]
  | cons x xs ih =>
    simp only [rfindIdx]
    cases h : rfindIdx c xs with
    | some i =>
      have hmem : c ∈ xs := by
        by_contra hn
        rw [← ih] at hn
        rw [h] at hn
        exact Option.noConfusion hn
      simp [List.mem_cons, hmem]
    | none =>
      have hnmem : c ∉ xs := ih.mp h
      by_cases hxc : x = c <;> simp [hxc, hnmem, List.mem_cons]
      exact fun he => hxc he.symm

theorem rfindIdx_lt_length (c : Char) (l : List Char) (i : Nat)
    (h : rfindIdx c l = some i) : i < l.length := by
  induction l generalizing i with
  | nil => exact Option.noConfusion h
  | cons x xs ih =>
    simp only [rfindIdx] at h
    cases hx : rfindIdx c xs with
    | some j =>
      rw [hx] at h
      simp only [Option.some.injEq] at h
      subst h
      exact Nat.succ_lt_succ (ih j hx)
    | none =>
      rw [hx] at h
      by_cases hxc : x = c
      · rw [if_pos hxc] at h
        simp only [Option.some.injEq] at h
        subst h
        exact Nat.succ_pos _
      · rw [if_neg hxc] at h
        exact Option.noConfusion h

theorem range_any_iff_drop_any (u w : List Char) (si : Int) (t : Nat)
    (hsi : ∀ i : Nat, si < (i : Int) ↔ t ≤ i) :
    ((List.range u.length).any
        (fun i => decide (si < (i : Int)) && ((u ++ w).getD i '.' != '.')) = true
      ↔ (u.drop t).any (fun c => c != '.') = true) := by
  rw [List.any_eq_true, List.any_eq_true]
  constructor
  · rintro ⟨i, hi, hcond⟩
    rw [List.mem_range] at hi
    rw [Bool.and_eq_true, decide_eq_true_iff] at hcond
    obtain ⟨h1, h2⟩ := hcond
    rw [hsi] at h1
    have hd : i - t < (u.drop t).length := by
      rw [List.length_drop]; omega
    refine ⟨(u.drop t).get ⟨i - t, hd⟩, List.get_mem _ _ hd, ?_⟩
    rw [List.get_eq_getElem, List.getElem_drop]
    rw [List.getD_append _ _ _ _ hi, List.getD_eq_getElem u '.' hi] at h2
    have hti : t + (i - t) = i := by omega
    convert h2 using 3
  · rintro ⟨c, hc, hcne⟩
    obtain ⟨j, hj, hcj⟩ := List.getElem_of_mem hc
    rw [List.length_drop] at hj
    have hjt : t + j < u.length := by omega
    refine ⟨t + j, List.mem_range.mpr hjt, ?_⟩
    rw [Bool.and_eq_true, decide_eq_true_iff]
    refine ⟨(hsi (t + j)).mpr (by omega), ?_⟩
    rw [List.getD_append _ _ _ _ hjt, List.getD_eq_getElem u '.' hjt]
    rw [List.getElem_drop] at hcj
    rw [hcj]
    exact hcne

theorem splitextExtAux_no_dot (p : List Char) (hp : '.' ∉ p) :
    splitextExtAux p = [] := by
  unfold splitextExtAux
  rw [(rfindIdx_eq_none_iff '.' p).mpr hp]
  cases h : rfindIdx '/' p with
  | none => simp
  | some k => simp

theorem splitextExtAux_spec (u v : List Char) (hv : '.' ∉ v) :
    ('/' ∈ v → splitextExtAux (u ++ '.' :: v) = []) ∧
    ('/' ∉ v → (afterLastSep u).any (fun c => c != '.') = true →
      splitextExtAux (u ++ '.' :: v) = '.' :: v) ∧
    ('/' ∉ v → (∀ c ∈ afterLastSep u, c = '.') →
      splitextExtAux (u ++ '.' :: v) = []) := by
  have hdot : rfindIdx '.' (u ++ '.' :: v) = some u.length := by
    have h1 : rfindIdx '.' ('.' :: v) = some 0 := by
      simp [rfindIdx, (rfindIdx_eq_none_iff '.' v).mpr hv]
    rw [rfindIdx_append, h1]
    simp
  refine ⟨?_, ?_, ?_⟩
  · -- a separator after the final dot: no extension
    intro hsep
    obtain ⟨j, hj⟩ : ∃ j, rfindIdx '/' v = some j := by
      cases h : rfindIdx '/' v with
      | none => exact absurd ((rfindIdx_eq_none_iff '/' v).mp h) (by simpa using hsep)
      | some j => exact ⟨j, rfl⟩
    have hsepidx : rfindIdx '/' (u ++ '.' :: v) = some (u.length + (j + 1)) := by
      rw [rfindIdx_append]
      simp only [rfindIdx, hj]
    unfold splitextExtAux
    rw [hdot, hsepidx]
    simp only
    rw [if_neg (by push_cast; omega)]
  · -- no separator after the dot, a non-dot character in the last
    -- component of the prefix: the extension is the dot suffix
    intro hsep hany
    have hsepc : rfindIdx '/' ('.' :: v) = none := by
      simp only [rfindIdx, (rfindIdx_eq_none_iff '/' v).mpr hsep]
      decide
    unfold splitextExtAux
    rw [hdot, rfindIdx_append, hsepc]
    simp only
    cases hu : rfindIdx '/' u with
    | some k =>
      have hk := rfindIdx_lt_length '/' u k hu
      rw [if_pos (by push_cast; omega)]
      rw [Int.toNat_ofNat]
      rw [if_pos ?side]
      · exact List.drop_left u ('.' :: v)
      case side =>
        rw [range_any_iff_drop_any u ('.' :: v) ((k : Nat) : Int) (k + 1)
          (by intro i; push_cast; omega)]
        rw [afterLastSep, hu] at hany
        exact hany
    | none =>
      rw [if_pos (by push_cast; omega)]
      rw [Int.toNat_ofNat]
      rw [if_pos ?side2]
      · exact List.drop_left u ('.' :: v)
      case side2 =>
        rw [range_any_iff_drop_any u ('.' :: v) (-1 : Int) 0
          (by intro i; omega)]
        rw [afterLastSep, hu] at hany
        simpa using hany
  · -- no separator after the dot, every prefix character of the last
    -- component is a dot: no extension
    intro hsep hall
    have hsepc : rfindIdx '/' ('.' :: v) = none := by
      simp only [rfindIdx, (rfindIdx_eq_none_iff '/' v).mpr hsep]
      decide
    unfold splitextExtAux
    rw [hdot, rfindIdx_append, hsepc]
    simp only
    cases hu : rfindIdx '/' u with
    | some k =>
      have hk := rfindIdx_lt_length '/' u k hu
      rw [if_pos (by push_cast; omega)]
      rw [Int.toNat_ofNat]
      rw [if_neg ?sideg]
      case sideg =>
        rw [range_any_iff_drop_any u ('.' :: v) ((k : Nat) : Int) (k + 1)
          (by intro i; push_cast; omega)]
        rw [List.any_eq_true]
        rintro ⟨c, hc, hne2⟩
        rw [afterLastSep, hu] at hall
        exact absurd (hall c hc) (by simpa using hne2)
    | none =>
      rw [if_pos (by push_cast; omega)]
      rw [Int.toNat_ofNat]
      rw [if_neg ?sideg2]
      case sideg2 =>
        rw [range_any_iff_drop_any u ('.' :: v) (-1 : Int) 0
          (by intro i; omega)]
        rw [List.any_eq_true]
        rintro ⟨c, hc, hne2⟩
        rw [afterLastSep, hu] at hall
        rw [List.drop_zero] at hc
        exact absurd (hall c hc) (by simpa using hne2)

/-- C3 counterexample: the name `".edi"` ends in `".edi"` yet
classifies as `"text/plain"`, not `"application/edi"` — with Python's
`splitext`, a leading dot of the last path component does not open an
extension. -/
theorem classify_suffix_cex :
    List.isSuffixOf ".edi".data ".edi".data = true ∧
    classify ".edi" = "text/plain" ∧
    ("text/plain" : String) ≠ "application/edi" := by
  decide

/-- C3 (amended): `classify` is a total deterministic function (it is
a Lean function); the lookup table holds with "names ending in X"
amended to "names whose extracted extension lowercases to X": `.txt`,
`.edi`, `.xml`, `.json` map to their content types, every other
extension value to the default `"text/plain"`; the match is
case-insensitive (only the lowercased extension determines the
result); and the concrete examples of the claim all hold. -/
theorem classify_lookup_table (name : String) :
    (strLower (splitextExt name) = ".txt" → classify name = "text/plain") ∧
    (strLower (splitextExt name) = ".edi" → classify name = "application/edi") ∧
    (strLower (splitextExt name) = ".xml" → classify name = "application/xml") ∧
    (strLower (splitextExt name) = ".json" → classify name = "application/json") ∧
    (strLower (splitextExt name) ≠ ".txt" → strLower (splitextExt name) ≠ ".edi" →
      strLower (splitextExt name) ≠ ".xml" → strLower (splitextExt name) ≠ ".json" →
      classify name = "text/plain") ∧
    (∀ other : String, strLower (splitextExt name) = strLower (splitextExt other) →
      classify name = classify other) ∧
    classify "a.txt" = "text/plain" ∧ classify "a.EDI" = "application/edi" ∧
    classify "a.xml" = "application/xml" ∧ classify "a.json" = "application/json" ∧
    classify "a" = "text/plain" ∧ classify "a.csv" = "text/plain" := by
  refine ⟨?_, ?_, ?_, ?_, ?_, ?_, by decide, by decide, by decide, by decide,
    by decide, by decide⟩
  · intro h; simp [classify, h]
  · intro h; simp [classify, h]
  · intro h; simp [classify, h]
  · intro h; simp [classify, h]
  · intro h1 h2 h3 h4; simp [classify, h1, h2, h3, h4]
  · intro other h; unfold classify; rw [h]

/-- Witness for C3: a mixed-case `.xml` name classifies by its
lowercased extension. -/
theorem classify_lookup_table_witness :
    strLower (splitextExt "A.Xml") = ".xml" ∧
    classify "A.Xml" = "application/xml" :=
  ⟨by decide, (classify_lookup_table "A.Xml").2.2.1 (by decide)⟩

/-- C4 counterexample: for the name `".edi"` the claim's extension —
the lowercased substring after the final dot, `".edi"` itself — is not
the extension the code uses, which is empty, and the classification
result differs accordingly. -/
theorem splitext_claimed_extension_cex :
    specClaimedExtension ".edi" = ".edi" ∧
    strLower (splitextExt ".edi") = "" ∧
    specClaimedExtension ".edi" ≠ strLower (splitextExt ".edi") ∧
    classify ".edi" = "text/plain" := by
  decide

/-- C4 (amended): the extension used by `classify` is the lowercased
substring of the name from the final `'.'` — except that it is empty
when the name has no `'.'`, when a `'/'` occurs after the final `'.'`,
or when every character of the name's last path component before the
final `'.'` is itself a `'.'`; the classification result is obtained
by applying the lookup table to exactly that extension.  (Any name
with a dot decomposes uniquely as `u ++ '.' :: v` with no dot in
`v`.) -/
theorem splitext_extension_spec (u v : List Char) (hv : '.' ∉ v) :
    ('/' ∈ v → strLower (splitextExt (String.mk (u ++ '.' :: v))) = "") ∧
    ('/' ∉ v → (afterLastSep u).any (fun c => c != '.') = true →
      strLower (splitextExt (String.mk (u ++ '.' :: v)))
        = String.mk (('.' :: v).map Char.toLower)) ∧
    ('/' ∉ v → (∀ c ∈ afterLastSep u, c = '.') →
      strLower (splitextExt (String.mk (u ++ '.' :: v))) = "") ∧
    (∀ p : List Char, '.' ∉ p → strLower (splitextExt (String.mk p)) = "") ∧
    (∀ nm : String, classify nm
      = (if strLower (splitextExt nm) = ".txt" then "text/plain"
         else if strLower (splitextExt nm) = ".edi" then "application/edi"
         else if strLower (splitextExt nm) = ".xml" then "application/xml"
         else if strLower (splitextExt nm) = ".json" then "application/json"
         else "text/plain")) := by
  have hkey : ∀ l : List Char,
      strLower (splitextExt (String.mk l)) = String.mk ((splitextExtAux l).map Char.toLower) :=
    fun l => rfl
  obtain ⟨h1, h2, h3⟩ := splitextExtAux_spec u v hv
  refine ⟨?_, ?_, ?_, ?_, fun nm => rfl⟩
  · intro hsep
    rw [hkey, h1 hsep]
    rfl
  · intro hsep hany
    rw [hkey, h2 hsep hany]
  · intro hsep hall
    rw [hkey, h3 hsep hall]
    rfl
  · intro p hp
    rw [hkey, splitextExtAux_no_dot p hp]
    rfl

/-- Witness for C4: the name `a.edi` decomposed as `"a" ++ '.' ::
"edi"`; its extracted extension is `".edi"`. -/
theorem splitext_extension_spec_witness :
    ('.' ∉ "edi".data) ∧ ('/' ∉ "edi".data) ∧
    (afterLastSep "a".data).any (fun c => c != '.') = true ∧
    strLower (splitextExt (String.mk ("a".data ++ '.' :: "edi".data)))
      = String.mk (('.' :: "edi".data).map Char.toLower) :=
  ⟨by decide, by decide, by decide,
   (splitext_extension_spec "a".data "edi".data (by decide)).2.1 (by decide) (by decide)⟩

end BlobTrigger
